import Mathlib

/-!
Verification of the client-side CSV export utility of the library manager
component (`libraryManager.js`): the cell escaper `formatCsvCell`, the
document construction inside `handleExportClick`, and the delivery step
`downloadCsv`.  Strings are modelled as `List Char` (JS strings are
sequences of code points; none of the exporter's operations split
surrogate pairs).
-/

namespace LibraryManager

/-- Model of the JS values that can reach the cell escaper: `null`,
`undefined`, or a string.  The loose equality test `value == null` in the
source is true exactly for `null` and `undefined`. -/
inductive JsValue where
  | null
  | undefined
  | str (s : List Char)
deriving DecidableEq, Repr

/-- Loose equality against `null` (`value == null` in the source): true for
both `null` and `undefined`, false for any string. -/
def looseEqNull : JsValue → Bool
  | .null => true
  | .undefined => true
  | .str _ => false

/-- Conversion `value.toString()`.  Only ever applied after the null check
in `formatCsvCell`, so only the string case is reachable there. -/
def jsToString : JsValue → List Char
  | .null => []
  | .undefined => []
  | .str s => s

/-- Model of `cell.replace(/"/g, '""')`: every quote character is replaced
by two quote characters; all other characters pass through unchanged. -/
def doubleQuotes : List Char → List Char
  | [] => []
  | c :: rest => if c = '"' then '"' :: '"' :: doubleQuotes rest else c :: doubleQuotes rest

/-- Character class of the JS regex `\s` (ECMAScript WhiteSpace and
LineTerminator): tab, LF, VT, FF, CR, space, NBSP, U+1680, U+2000–U+200A,
U+2028, U+2029, U+202F, U+205F, U+3000, U+FEFF. -/
def isJsWhitespace (c : Char) : Bool :=
  let n := c.toNat
  (9 ≤ n && n ≤ 13) || n == 32 || n == 0xA0 || n == 0x1680 ||
  (0x2000 ≤ n && n ≤ 0x200A) || n == 0x2028 || n == 0x2029 ||
  n == 0x202F || n == 0x205F || n == 0x3000 || n == 0xFEFF

/-- Character class of the wrapping test `cell.search(/("|,|\n|\s)/g) >= 0`:
a quote, a comma, a newline, or any `\s` whitespace character. -/
def needsQuote (c : Char) : Bool :=
  c == '"' || c == ',' || c == '\n' || isJsWhitespace c

/-- Model of `formatCsvCell(value)`: `null`/`undefined` become the
two-character string `""`; otherwise quotes are doubled and the cell is
wrapped in quotes when it contains a quote, comma, newline, or whitespace. -/
def formatCsvCell (value : JsValue) : List Char :=
  if looseEqNull value then ['"', '"']
  else
    let cell := doubleQuotes (jsToString value)
    if cell.any needsQuote then '"' :: cell ++ ['"'] else cell

/-- Predicate expressing that every quote character in a string occurs as
part of an adjacent doubled pair (every maximal run of quote characters
has even length), i.e. there is no unescaped quote. -/
def quotesDoubled : List Char → Bool
  | [] => true
  | [c] => c != '"'
  | c :: c2 :: rest =>
    if c = '"' then c2 == '"' && quotesDoubled rest
    else quotesDoubled (c2 :: rest)

/-- Model of `Array.prototype.join` with a one-character separator:
`[].join(sep) = ''`, `[l].join(sep) = l`, and otherwise the pieces are
interleaved with the separator. -/
def joinWith (sep : Char) : List (List Char) → List Char
  | [] => []
  | [l] => l
  | l :: l2 :: rest => l ++ sep :: joinWith sep (l2 :: rest)

/-- Model of the nested `Author__r` record (`{ Name }`) carried by a book
row when the author lookup was retrieved. -/
structure AuthorRef where
  Name : JsValue
deriving DecidableEq, Repr

/-- Model of one record returned by `getBookData()`:
`{ Id, Name, Book_Genre__c, Author__r }` (the `Id` field is never read by
the exporter and is omitted). `Author__r` is absent (`undefined`) when the
author data was not retrieved. -/
structure Book where
  Name : JsValue
  Author__r : Option AuthorRef
  Book_Genre__c : JsValue
deriving DecidableEq, Repr

/-- Header labels of the export, from `handleExportClick`:
`['Book Name', 'Author', 'Genre']`. -/
def headers : List (List Char) :=
  ["Book Name".data, "Author".data, "Genre".data]

/-- Values pushed for one book row, in order, before escaping: `book.Name`,
`book.Author__r ? book.Author__r.Name : ''`, `book.Book_Genre__c`. -/
def bookValues (book : Book) : List JsValue :=
  [book.Name,
   (match book.Author__r with
    | some a => a.Name
    | none => .str []),
   book.Book_Genre__c]

/-- Escaped cells of one book row: each value passed through
`formatCsvCell`. -/
def bookRow (book : Book) : List (List Char) :=
  (bookValues book).map formatCsvCell

/-- Document builder: the header labels joined with commas form the first
line, each record's values are escaped with `formatCsvCell` and joined
with commas to form one line, and all lines are joined with a newline.
This is the construction of `handleExportClick` (lines 104–122),
parametrised by the column labels and per-record value lists it uses. -/
def buildDocument (hdrs : List (List Char)) (rows : List (List JsValue)) : List Char :=
  joinWith '\n'
    (joinWith ',' hdrs :: rows.map (fun r => joinWith ',' (r.map formatCsvCell)))

/-- The CSV text built by `handleExportClick` for a given book list. -/
def bookCsvString (bookData : List Book) : List Char :=
  buildDocument headers (bookData.map bookValues)

/-- Model of a toast notification event (`showToast` arguments). -/
structure Toast where
  title : List Char
  message : List Char
  variant : List Char
deriving DecidableEq, Repr

/-- Observable outcome of an export click: either the "no data" toast with
no document built, or a download of a named CSV text. -/
inductive ExportOutcome where
  | noData (toast : Toast)
  | download (fileName : List Char) (csvString : List Char)
deriving DecidableEq, Repr

/-- Model of one editable author row (`authorsToCreate` entries). -/
structure AuthorDraft where
  tempId : Nat
  Name : List Char
  Pseudonyms__c : List Char
  Date_of_Birth__c : Option (List Char)
deriving DecidableEq

/-- Model of one editable book row (`booksToCreate` entries). -/
structure BookDraft where
  tempId : Nat
  Name : List Char
  Book_Genre__c : List Char
  Author__c : Option (List Char)
deriving DecidableEq

/-- Mutable component state of `LibraryManager` touched by its handlers. -/
structure ComponentState where
  isAddAuthorModalOpen : Bool
  authorsToCreate : List AuthorDraft
  isAddBookModalOpen : Bool
  booksToCreate : List BookDraft
  isDeleteAuthorModalOpen : Bool
  authorToDeleteId : Option (List Char)
deriving DecidableEq

/-- Model of `handleExportClick`: on an empty book list it shows the
"No Data" info toast and returns without building a document; otherwise it
builds the CSV text and triggers the download of `book-list.csv`.  The
handler assigns no component field, so the state passes through
unchanged. -/
def handleExportClick (state : ComponentState) (bookData : List Book) :
    ComponentState × ExportOutcome :=
  if bookData.length = 0 then
    (state, .noData ⟨"No Data".data, "No data to export.".data, "info".data⟩)
  else
    (state, .download "book-list.csv".data (bookCsvString bookData))

/-- Byte-order mark character U+FEFF prepended by `downloadCsv`. -/
def bom : Char := Char.ofNat 0xFEFF

/-- UTF-8 encoding of one code point as a list of byte values. -/
def utf8Bytes (c : Char) : List Nat :=
  let n := c.toNat
  if n < 0x80 then [n]
  else if n < 0x800 then [0xC0 + n / 0x40, 0x80 + n % 0x40]
  else if n < 0x10000 then
    [0xE0 + n / 0x1000, 0x80 + (n / 0x40) % 0x40, 0x80 + n % 0x40]
  else
    [0xF0 + n / 0x40000, 0x80 + (n / 0x1000) % 0x40, 0x80 + (n / 0x40) % 0x40,
     0x80 + n % 0x40]

/-- Uppercase hexadecimal digit for a value below 16. -/
def hexDigitChar (n : Nat) : Char :=
  if n < 10 then Char.ofNat (48 + n) else Char.ofNat (55 + n)

/-- Percent-encoding of one byte: `%` followed by two uppercase hex
digits. -/
def percentEncodeByte (b : Nat) : List Char :=
  ['%', hexDigitChar (b / 16), hexDigitChar (b % 16)]

/-- Characters left unescaped by JS `encodeURI`: ASCII letters and digits
and `; / ? : @ & = + $ , # - _ . ! ~ * ' ( )` (by code point: 59 47 63 58
64 38 61 43 36 44 35 45 95 46 33 126 42 39 40 41). -/
def isUriUnescaped (c : Char) : Bool :=
  let n := c.toNat
  (65 ≤ n && n ≤ 90) || (97 ≤ n && n ≤ 122) || (48 ≤ n && n ≤ 57) ||
  n == 59 || n == 47 || n == 63 || n == 58 || n == 64 || n == 38 ||
  n == 61 || n == 43 || n == 36 || n == 44 || n == 35 || n == 45 ||
  n == 95 || n == 46 || n == 33 || n == 126 || n == 42 || n == 39 ||
  n == 40 || n == 41

/-- Encoding of one character by `encodeURI`: unescaped characters pass
through; every other character is replaced by the percent-encoding of its
UTF-8 bytes. -/
def encodeURIChar (c : Char) : List Char :=
  if isUriUnescaped c then [c] else (utf8Bytes c).flatMap percentEncodeByte

/-- Model of JS `encodeURI` applied to a string. -/
def encodeURI (s : List Char) : List Char :=
  s.flatMap encodeURIChar

/-- Hexadecimal digit value of a character, accepting both cases. -/
def hexVal (c : Char) : Option Nat :=
  let n := c.toNat
  if 48 ≤ n ∧ n ≤ 57 then some (n - 48)
  else if 65 ≤ n ∧ n ≤ 70 then some (n - 55)
  else if 97 ≤ n ∧ n ≤ 102 then some (n - 87)
  else none

mutual

/-- Percent-decoding of a URI payload into byte values: `%hh` becomes the
byte `hh`, any other character becomes its own code point. -/
def percentDecode : List Char → Option (List Nat)
  | [] => some []
  | c :: rest =>
    if c = '%' then percentDecodeHexPair rest
    else (percentDecode rest).map (fun bs => c.toNat :: bs)
termination_by l => l.length

/-- Continuation of `percentDecode` after a percent sign: two hex digits
form one byte. -/
def percentDecodeHexPair : List Char → Option (List Nat)
  | h1 :: h2 :: rest =>
    (hexVal h1).bind (fun hi => (hexVal h2).bind (fun lo =>
      (percentDecode rest).map (fun bs => (16 * hi + lo) :: bs)))
  | _ => none
termination_by l => l.length

end

mutual

/-- UTF-8 decoding of a byte list back into characters (multi-byte
sequences are reassembled from their lead byte's range). -/
def utf8Decode : List Nat → Option (List Char)
  | [] => some []
  | b :: rest =>
    if b < 0x80 then (utf8Decode rest).map (fun cs => Char.ofNat b :: cs)
    else if b < 0xE0 then utf8DecodeCont1 (b - 0xC0) rest
    else if b < 0xF0 then utf8DecodeCont2 (b - 0xE0) rest
    else utf8DecodeCont3 (b - 0xF0) rest
termination_by l => l.length

/-- Continuation of `utf8Decode` after a two-byte lead. -/
def utf8DecodeCont1 (hi : Nat) : List Nat → Option (List Char)
  | b2 :: rest =>
    (utf8Decode rest).map (fun cs => Char.ofNat (hi * 0x40 + (b2 - 0x80)) :: cs)
  | _ => none
termination_by l => l.length

/-- Continuation of `utf8Decode` after a three-byte lead. -/
def utf8DecodeCont2 (hi : Nat) : List Nat → Option (List Char)
  | b2 :: b3 :: rest =>
    (utf8Decode rest).map (fun cs =>
      Char.ofNat (hi * 0x1000 + (b2 - 0x80) * 0x40 + (b3 - 0x80)) :: cs)
  | _ => none
termination_by l => l.length

/-- Continuation of `utf8Decode` after a four-byte lead. -/
def utf8DecodeCont3 (hi : Nat) : List Nat → Option (List Char)
  | b2 :: b3 :: b4 :: rest =>
    (utf8Decode rest).map (fun cs =>
      Char.ofNat (hi * 0x40000 + (b2 - 0x80) * 0x1000 + (b3 - 0x80) * 0x40 +
        (b4 - 0x80)) :: cs)
  | _ => none
termination_by l => l.length

end

/-- Decoding of a data-URI payload: percent-decode to bytes, then UTF-8
decode to characters.  This is what a browser does with the payload of a
`data:` URI before saving the file. -/
def decodePayload (l : List Char) : Option (List Char) :=
  (percentDecode l).bind utf8Decode

/-- Model of the transient anchor element configured by `downloadCsv`. -/
structure Anchor where
  href : List Char
  target : List Char
  download : List Char
deriving DecidableEq

/-- Scheme-and-MIME head of the data URI built by `downloadCsv`. -/
def dataUriHead : List Char := "data:text/csv;charset=utf-8,".data

/-- Model of `downloadCsv(csvData, fileName)`: the anchor's `href` is the
data URI whose payload is `encodeURI` of the byte-order mark followed by
the CSV text, its `target` is `_blank`, and its `download` attribute is
the file name. -/
def downloadCsv (csvData : List Char) (fileName : List Char) : Anchor :=
  { href := dataUriHead ++ encodeURI (bom :: csvData)
  , target := "_blank".data
  , download := fileName }

/-- Newline-freedom of a JS value: a string value contains no newline
character; null and undefined are vacuously newline-free. -/
def valueNewlineFree : JsValue → Bool
  | .str s => !s.contains '\n'
  | _ => true

/-- Apostrophe character (code point 39). -/
def apos : Char := Char.ofNat 39

/-- Quote doubling neither removes nor introduces characters: membership
is preserved in both directions. -/
theorem mem_doubleQuotes {c : Char} {s : List Char} :
    c ∈ doubleQuotes s ↔ c ∈ s := by
  induction s with
  | nil => simp [doubleQuotes]
  | cons a t ih =>
    by_cases h : a = '"'
    · subst h
      have he : doubleQuotes ('"' :: t) = '"' :: '"' :: doubleQuotes t := by
        simp [doubleQuotes]
      rw [he]
      simp only [List.mem_cons, ih]
      tauto
    · simp [doubleQuotes, h, List.mem_cons, ih]

/-- Quote doubling exactly doubles the number of quote characters. -/
theorem count_doubleQuotes (s : List Char) :
    (doubleQuotes s).count '"' = 2 * s.count '"' := by
  induction s with
  | nil => rfl
  | cons a t ih =>
    by_cases h : a = '"'
    · subst h
      simp [doubleQuotes, List.count_cons, ih]
      ring
    · simp [doubleQuotes, h, List.count_cons, ih]

/-- Quote doubling is the identity on strings with no quote character. -/
theorem doubleQuotes_eq_self {s : List Char} (h : ∀ c ∈ s, c ≠ '"') :
    doubleQuotes s = s := by
  induction s with
  | nil => rfl
  | cons a t ih =>
    have ha : a ≠ '"' := h a (by simp)
    simp [doubleQuotes, ha, ih (fun c hc => h c (by simp [hc]))]

/-- After quote doubling, every quote occurs as part of a doubled pair. -/
theorem quotesDoubled_doubleQuotes (s : List Char) :
    quotesDoubled (doubleQuotes s) = true := by
  induction s with
  | nil => rfl
  | cons a t ih =>
    by_cases h : a = '"'
    · subst h
      have : doubleQuotes ('"' :: t) = '"' :: '"' :: doubleQuotes t := by
        simp [doubleQuotes]
      rw [this]
      simpa [quotesDoubled] using ih
    · have hdq : doubleQuotes (a :: t) = a :: doubleQuotes t := by
        simp [doubleQuotes, h]
      rw [hdq]
      rcases he : doubleQuotes t with _ | ⟨b, u⟩
      · simp [quotesDoubled, h]
      · rw [he] at ih
        simp [quotesDoubled, h, ih]

/-- One member satisfying the wrap test makes `List.any needsQuote` true. -/
theorem any_needsQuote_of_mem {c : Char} {s : List Char} (hc : c ∈ s)
    (hq : needsQuote c = true) : s.any needsQuote = true :=
  List.any_eq_true.mpr ⟨c, hc, hq⟩

/-- On a string cell whose doubled form contains a character in the wrap
class, `formatCsvCell` returns the doubled form wrapped in quotes. -/
theorem formatCsvCell_str_wrapped {s : List Char}
    (h : (doubleQuotes s).any needsQuote = true) :
    formatCsvCell (.str s) = '"' :: doubleQuotes s ++ ['"'] := by
  simp [formatCsvCell, looseEqNull, jsToString, h]

/-- Splitting on the separator undoes `joinWith` when no piece contains
the separator and the piece list is non-empty. -/
theorem splitOn_joinWith (sep : Char) :
    ∀ ls : List (List Char), (∀ l ∈ ls, sep ∉ l) → ls ≠ [] →
      (joinWith sep ls).splitOn sep = ls
  | [], _, hne => absurd rfl hne
  | [l], h, _ => by
    have hl : ∀ x ∈ l, ¬((x == sep) = true) := by
      intro x hx hbeq
      exact (h l (by simp)) (beq_iff_eq.mp hbeq ▸ hx)
    simpa [joinWith, List.splitOn] using List.splitOnP_eq_single _ _ hl
  | l :: l2 :: rest, h, _ => by
    have hl : ∀ x ∈ l, ¬((x == sep) = true) := by
      intro x hx hbeq
      exact (h l (by simp)) (beq_iff_eq.mp hbeq ▸ hx)
    have ih := splitOn_joinWith sep (l2 :: rest)
      (fun l' hl' => h l' (List.mem_cons_of_mem _ hl')) (by simp)
    show (l ++ sep :: joinWith sep (l2 :: rest)).splitOn sep = l :: l2 :: rest
    simp only [List.splitOn] at ih ⊢
    have hfirst := List.splitOnP_first (fun x => x == sep) l hl sep (by simp)
      (joinWith sep (l2 :: rest))
    rw [hfirst, ih]

/-- Membership in a `joinWith` result comes from the separator or from one
of the pieces. -/
theorem mem_joinWith {c sep : Char} :
    ∀ {ls : List (List Char)}, c ∈ joinWith sep ls → c = sep ∨ ∃ l ∈ ls, c ∈ l
  | [], h => by simp [joinWith] at h
  | [l], h => Or.inr ⟨l, by simp, by simpa [joinWith] using h⟩
  | l :: l2 :: rest, h => by
    rw [show joinWith sep (l :: l2 :: rest) = l ++ sep :: joinWith sep (l2 :: rest)
      from rfl] at h
    rcases List.mem_append.mp h with h1 | h2
    · exact Or.inr ⟨l, by simp, h1⟩
    · rcases List.mem_cons.mp h2 with h3 | h4
      · exact Or.inl h3
      · rcases mem_joinWith h4 with h5 | ⟨l', hl', hc⟩
        · exact Or.inl h5
        · exact Or.inr ⟨l', List.mem_cons_of_mem _ hl', hc⟩

/-- Escaping a newline-free value yields a newline-free cell. -/
theorem newline_not_mem_formatCsvCell {v : JsValue}
    (h : valueNewlineFree v = true) : '\n' ∉ formatCsvCell v := by
  cases v with
  | null => decide
  | undefined => decide
  | str s =>
    have hs : '\n' ∉ s := by
      intro hmem
      simp [valueNewlineFree, List.contains, List.elem_iff] at h
      exact h hmem
    intro hmem
    by_cases hany : (doubleQuotes s).any needsQuote = true
    · rw [formatCsvCell_str_wrapped hany] at hmem
      rcases List.mem_append.mp hmem with h1 | h2
      · rcases List.mem_cons.mp h1 with h3 | h4
        · exact absurd h3 (by decide)
        · exact hs (mem_doubleQuotes.mp h4)
      · rw [List.mem_singleton] at h2
        exact absurd h2 (by decide)
    · rw [Bool.not_eq_true] at hany
      rw [show formatCsvCell (.str s) = doubleQuotes s from by
        simp [formatCsvCell, looseEqNull, jsToString, hany]] at hmem
      exact hs (mem_doubleQuotes.mp hmem)

/-- A book row whose values are newline-free joins to a newline-free
line. -/
theorem newline_not_mem_row (b : Book)
    (h : ∀ v ∈ bookValues b, valueNewlineFree v = true) :
    '\n' ∉ joinWith ',' (bookRow b) := by
  intro hmem
  rcases mem_joinWith hmem with h1 | ⟨l, hl, hc⟩
  · exact absurd h1 (by decide)
  · rcases List.mem_map.mp (by simpa [bookRow] using hl) with ⟨v, hv, rfl⟩
    exact newline_not_mem_formatCsvCell (h v hv) hc

/-- Every character's code point is below 0x110000. -/
theorem char_toNat_lt (c : Char) : c.toNat < 0x110000 := by
  have h := c.valid
  simp only [UInt32.isValidChar, Nat.isValidChar] at h
  rcases h with h | ⟨_, h2⟩
  · exact Nat.lt_trans h (by norm_num)
  · exact h2

/-- All UTF-8 bytes of a character are byte values. -/
theorem utf8Bytes_lt_256 (c : Char) : ∀ b ∈ utf8Bytes c, b < 256 := by
  intro b hb
  have h := char_toNat_lt c
  simp only [utf8Bytes] at hb
  split_ifs at hb with h1 h2 h3 <;> simp [List.mem_cons] at hb <;> omega

/-- Decoding a produced hex digit returns the digit's value. -/
theorem hexVal_hexDigitChar : ∀ x, x < 16 → hexVal (hexDigitChar x) = some x := by
  decide

/-- Characters left unescaped by `encodeURI` are ASCII. -/
theorem toNat_lt_128_of_unescaped {c : Char} (h : isUriUnescaped c = true) :
    c.toNat < 128 := by
  simp only [isUriUnescaped, Bool.or_eq_true, Bool.and_eq_true, beq_iff_eq,
    decide_eq_true_eq] at h
  omega

/-- The percent sign is escaped by `encodeURI`. -/
theorem ne_percent_of_unescaped {c : Char} (h : isUriUnescaped c = true) :
    c ≠ '%' := by
  intro he
  subst he
  simp [isUriUnescaped] at h

/-- ASCII characters are their own single UTF-8 byte. -/
theorem utf8Bytes_ascii {c : Char} (h : c.toNat < 0x80) :
    utf8Bytes c = [c.toNat] := by
  simp [utf8Bytes, h]

/-- Percent-decoding consumes one percent-encoded byte at the front. -/
theorem percentDecode_encodeByte (b : Nat) (hb : b < 256) (rest : List Char) :
    percentDecode (percentEncodeByte b ++ rest) =
      (percentDecode rest).map (fun bs => b :: bs) := by
  have e1 : hexVal (hexDigitChar (b / 16)) = some (b / 16) :=
    hexVal_hexDigitChar _ (by omega)
  have e2 : hexVal (hexDigitChar (b % 16)) = some (b % 16) :=
    hexVal_hexDigitChar _ (by omega)
  have harith : 16 * (b / 16) + b % 16 = b := by omega
  simp only [percentEncodeByte, List.cons_append, List.nil_append]
  rw [percentDecode, if_pos rfl, percentDecodeHexPair, e1, e2]
  simp only [Option.some_bind, harith]

/-- Percent-decoding consumes a block of percent-encoded bytes at the
front. -/
theorem percentDecode_encodedBytes :
    ∀ (bs : List Nat), (∀ b ∈ bs, b < 256) → ∀ rest : List Char,
      percentDecode (bs.flatMap percentEncodeByte ++ rest) =
        (percentDecode rest).map (fun tail => bs ++ tail)
  | [], _, rest => by
    simp only [List.flatMap_nil, List.nil_append]
    cases percentDecode rest <;> simp
  | b :: bs, h, rest => by
    have hb : b < 256 := h b (by simp)
    have ih := percentDecode_encodedBytes bs (fun x hx => h x (by simp [hx])) rest
    simp only [List.flatMap_cons, List.append_assoc]
    rw [percentDecode_encodeByte b hb, ih]
    cases percentDecode rest <;> simp

/-- Percent-decoding consumes one `encodeURI`-encoded character at the
front. -/
theorem percentDecode_encodeURIChar (c : Char) (rest : List Char) :
    percentDecode (encodeURIChar c ++ rest) =
      (percentDecode rest).map (fun tail => utf8Bytes c ++ tail) := by
  by_cases h : isUriUnescaped c = true
  · have hlt := toNat_lt_128_of_unescaped h
    have hne := ne_percent_of_unescaped h
    simp only [encodeURIChar, if_pos h, List.cons_append, List.nil_append]
    rw [percentDecode, if_neg hne, utf8Bytes_ascii hlt]
    cases percentDecode rest <;> simp
  · simp only [encodeURIChar, if_neg h]
    exact percentDecode_encodedBytes (utf8Bytes c) (utf8Bytes_lt_256 c) rest

/-- Percent-decoding an `encodeURI` output recovers the UTF-8 bytes of the
input. -/
theorem percentDecode_encodeURI (s : List Char) :
    percentDecode (encodeURI s) = some (s.flatMap utf8Bytes) := by
  induction s with
  | nil =>
    simp only [encodeURI, List.flatMap_nil]
    rw [percentDecode]
  | cons c t ih =>
    simp only [encodeURI, List.flatMap_cons] at ih ⊢
    rw [percentDecode_encodeURIChar c, ih]
    rfl

/-- UTF-8 decoding consumes one character's bytes at the front. -/
theorem utf8Decode_utf8Bytes (c : Char) (bs : List Nat) :
    utf8Decode (utf8Bytes c ++ bs) = (utf8Decode bs).map (fun cs => c :: cs) := by
  have hlt := char_toNat_lt c
  by_cases h1 : c.toNat < 0x80
  · rw [utf8Bytes_ascii h1]
    simp only [List.cons_append, List.nil_append]
    rw [utf8Decode, if_pos h1]
    simp only [Char.ofNat_toNat]
  · by_cases h2 : c.toNat < 0x800
    · rw [show utf8Bytes c = [0xC0 + c.toNat / 0x40, 0x80 + c.toNat % 0x40] from by
        simp only [utf8Bytes, if_neg h1, if_pos h2]]
      simp only [List.cons_append, List.nil_append]
      rw [utf8Decode, if_neg (by omega), if_pos (by omega : 0xC0 + c.toNat / 0x40 < 0xE0),
        utf8DecodeCont1]
      simp only [show 0xC0 + c.toNat / 0x40 - 0xC0 = c.toNat / 0x40 from by omega,
        show (c.toNat / 0x40) * 0x40 + (0x80 + c.toNat % 0x40 - 0x80) = c.toNat from by
          omega, Char.ofNat_toNat]
    · by_cases h3 : c.toNat < 0x10000
      · rw [show utf8Bytes c = [0xE0 + c.toNat / 0x1000, 0x80 + (c.toNat / 0x40) % 0x40,
            0x80 + c.toNat % 0x40] from by
            simp only [utf8Bytes, if_neg h1, if_neg h2, if_pos h3]]
        simp only [List.cons_append, List.nil_append]
        rw [utf8Decode, if_neg (by omega), if_neg (by omega),
          if_pos (by omega : 0xE0 + c.toNat / 0x1000 < 0xF0), utf8DecodeCont2]
        simp only [show 0xE0 + c.toNat / 0x1000 - 0xE0 = c.toNat / 0x1000 from by omega,
          show (c.toNat / 0x1000) * 0x1000 + (0x80 + (c.toNat / 0x40) % 0x40 - 0x80) * 0x40 +
            (0x80 + c.toNat % 0x40 - 0x80) = c.toNat from by omega, Char.ofNat_toNat]
      · rw [show utf8Bytes c = [0xF0 + c.toNat / 0x40000, 0x80 + (c.toNat / 0x1000) % 0x40,
            0x80 + (c.toNat / 0x40) % 0x40, 0x80 + c.toNat % 0x40] from by
            simp only [utf8Bytes, if_neg h1, if_neg h2, if_neg h3]]
        simp only [List.cons_append, List.nil_append]
        rw [utf8Decode, if_neg (by omega), if_neg (by omega), if_neg (by omega),
          utf8DecodeCont3]
        simp only [show 0xF0 + c.toNat / 0x40000 - 0xF0 = c.toNat / 0x40000 from by omega,
          show (c.toNat / 0x40000) * 0x40000 + (0x80 + (c.toNat / 0x1000) % 0x40 - 0x80) *
              0x1000 + (0x80 + (c.toNat / 0x40) % 0x40 - 0x80) * 0x40 +
              (0x80 + c.toNat % 0x40 - 0x80) = c.toNat from by omega, Char.ofNat_toNat]

/-- UTF-8 decoding recovers a string from its concatenated bytes. -/
theorem utf8Decode_flatMap (s : List Char) :
    utf8Decode (s.flatMap utf8Bytes) = some s := by
  induction s with
  | nil =>
    simp only [List.flatMap_nil]
    rw [utf8Decode]
  | cons c t ih =>
    simp only [List.flatMap_cons]
    rw [utf8Decode_utf8Bytes c, ih]
    rfl

/-- Round trip: decoding a data-URI payload produced by `encodeURI`
recovers the original text. -/
theorem decodePayload_encodeURI (s : List Char) :
    decodePayload (encodeURI s) = some s := by
  rw [decodePayload, percentDecode_encodeURI]
  simpa using utf8Decode_flatMap s

/-- Claim C1: the cell escaper, applied to null and applied to undefined,
returns the two-character string consisting of two quote characters in
both cases. -/
theorem formatCsvCell_null_undefined :
    formatCsvCell .null = ['"', '"'] ∧ formatCsvCell .undefined = ['"', '"'] :=
  ⟨rfl, rfl⟩

/-- Claim C3: for every string containing a comma, the escaped cell starts
with a quote, ends with a quote, and every quote strictly between the two
delimiters occurs as part of a doubled pair. -/
theorem formatCsvCell_comma (s : List Char) (h : ',' ∈ s) :
    (formatCsvCell (.str s)).head? = some '"' ∧
    (formatCsvCell (.str s)).getLast? = some '"' ∧
    quotesDoubled (((formatCsvCell (.str s)).drop 1).dropLast) = true := by
  have hmem : ',' ∈ doubleQuotes s := mem_doubleQuotes.mpr h
  have hany : (doubleQuotes s).any needsQuote = true :=
    any_needsQuote_of_mem hmem (by decide)
  rw [formatCsvCell_str_wrapped hany]
  refine ⟨rfl, ?_, ?_⟩
  · exact List.getLast?_concat _
  · simp only [List.cons_append, List.drop_succ_cons, List.drop_zero, List.dropLast_concat]
    exact quotesDoubled_doubleQuotes s

/-- Witness for C3 at the concrete input consisting of one comma. -/
theorem formatCsvCell_comma_witness :
    ',' ∈ [','] ∧
    ((formatCsvCell (.str [','])).head? = some '"' ∧
     (formatCsvCell (.str [','])).getLast? = some '"' ∧
     quotesDoubled (((formatCsvCell (.str [','])).drop 1).dropLast) = true) :=
  ⟨by decide, formatCsvCell_comma [','] (by decide)⟩

/-- Claim C4: for every string containing a quote, the escaped output has
exactly twice as many quotes as the input plus the two wrapping
delimiters, and between the delimiters every quote occurs as part of a
doubled pair. -/
theorem formatCsvCell_doubles_quotes (s : List Char) (h : '"' ∈ s) :
    (formatCsvCell (.str s)).count '"' = 2 * s.count '"' + 2 ∧
    quotesDoubled (((formatCsvCell (.str s)).drop 1).dropLast) = true := by
  have hmem : '"' ∈ doubleQuotes s := mem_doubleQuotes.mpr h
  have hany : (doubleQuotes s).any needsQuote = true :=
    any_needsQuote_of_mem hmem (by decide)
  rw [formatCsvCell_str_wrapped hany]
  constructor
  · simp [List.count_cons, List.count_append, count_doubleQuotes]
  · simp only [List.cons_append, List.drop_succ_cons, List.drop_zero, List.dropLast_concat]
    exact quotesDoubled_doubleQuotes s

/-- Witness for C4 at the concrete input consisting of one quote. -/
theorem formatCsvCell_doubles_quotes_witness :
    '"' ∈ ['"'] ∧
    ((formatCsvCell (.str ['"'])).count '"' = 2 * ['"'].count '"' + 2 ∧
     quotesDoubled (((formatCsvCell (.str ['"'])).drop 1).dropLast) = true) :=
  ⟨by decide, formatCsvCell_doubles_quotes ['"'] (by decide)⟩

/-- Claim C5: on a string with no comma, no quote, no newline and no
whitespace character, the escaper is the identity. -/
theorem formatCsvCell_plain (s : List Char)
    (h : ∀ c ∈ s, c ≠ ',' ∧ c ≠ '"' ∧ c ≠ '\n' ∧ isJsWhitespace c = false) :
    formatCsvCell (.str s) = s := by
  have hdq : doubleQuotes s = s := doubleQuotes_eq_self (fun c hc => (h c hc).2.1)
  have hany : s.any needsQuote = false := by
    rw [List.any_eq_false]
    intro c hc
    obtain ⟨h1, h2, h3, h4⟩ := h c hc
    simp [needsQuote, h1, h2, h3, h4]
  simp [formatCsvCell, looseEqNull, jsToString, hdq, hany]

/-- Witness for C5 at the concrete input `abc`. -/
theorem formatCsvCell_plain_witness :
    (∀ c ∈ ['a', 'b', 'c'], c ≠ ',' ∧ c ≠ '"' ∧ c ≠ '\n' ∧ isJsWhitespace c = false) ∧
    formatCsvCell (.str ['a', 'b', 'c']) = ['a', 'b', 'c'] :=
  ⟨by decide, formatCsvCell_plain ['a', 'b', 'c'] (by decide)⟩

/-- Claim C6: on an empty record sequence the export handler produces the
"No Data" info toast outcome — not a download, so no document is built and
no file is produced — and returns with the component state unchanged. -/
theorem handleExportClick_empty (st : ComponentState) :
    handleExportClick st [] =
      (st, .noData ⟨"No Data".data, "No data to export.".data, "info".data⟩) :=
  rfl

/-- Claim C8: every data row carries exactly as many cells as the header
row has columns — here three: Book Name, Author, Genre. -/
theorem bookRow_length (b : Book) :
    (bookRow b).length = headers.length ∧ (bookRow b).length = 3 := by
  constructor <;> simp [bookRow, bookValues, headers]

/-- Claim C10: the escaper special-cases only null/undefined: the empty
string passes through as a zero-length unquoted field, observably distinct
from the quoted output of null/undefined; in a book row with an absent
author reference, the author cell is that zero-length field. -/
theorem formatCsvCell_empty_distinct :
    formatCsvCell (.str []) = [] ∧
    formatCsvCell .null = ['"', '"'] ∧
    formatCsvCell .undefined = ['"', '"'] ∧
    formatCsvCell (.str []) ≠ formatCsvCell .null ∧
    ∀ (n g : JsValue), bookRow ⟨n, none, g⟩ = [formatCsvCell n, [], formatCsvCell g] := by
  refine ⟨rfl, rfl, rfl, by decide, fun n g => ?_⟩
  simp [bookRow, bookValues]
  rfl

/-- Claim C2: on the single record with Name `O'Brien, J.` and Genre
`Sci-Fi` under columns Name, Genre, the document builder produces exactly
the two-line text with the Name cell quote-wrapped and the Genre cell
unquoted. -/
theorem buildDocument_obrien :
    buildDocument ["Name".data, "Genre".data]
      [[.str ("O".data ++ apos :: "Brien, J.".data), .str "Sci-Fi".data]] =
    "Name,Genre\n\"O".data ++ apos :: "Brien, J.\",Sci-Fi".data := by
  decide

/-- Counterexample to claim C7 as stated: for the single book whose name
contains a newline, the built CSV text split on the newline separator has
three pieces, not `1 + 1` (the quoted newline stays inside the cell, so a
naive split cuts its line in two). -/
theorem bookCsv_lineCount_counterexample :
    (List.splitOn '\n'
        (bookCsvString [⟨.str ['a', '\n', 'b'], none, .str ['G']⟩])).length ≠ 1 + 1 := by
  decide

/-- Claim C7 (amended): for every non-empty record sequence whose field
values contain no newline character, the built CSV text split on the
newline separator is exactly the header line followed by one line per
record in input order — in particular it has (number of records) + 1
lines. -/
theorem bookCsv_lineCount (books : List Book) (hne : books ≠ [])
    (h : ∀ b ∈ books, ∀ v ∈ bookValues b, valueNewlineFree v = true) :
    List.splitOn '\n' (bookCsvString books) =
      joinWith ',' headers :: books.map (fun b => joinWith ',' (bookRow b)) ∧
    (List.splitOn '\n' (bookCsvString books)).length = books.length + 1 := by
  have hbuild : bookCsvString books =
      joinWith '\n'
        (joinWith ',' headers :: books.map (fun b => joinWith ',' (bookRow b))) := by
    simp only [bookCsvString, buildDocument, List.map_map]
    rfl
  have hlines : ∀ l ∈ (joinWith ',' headers ::
      books.map (fun b => joinWith ',' (bookRow b))), '\n' ∉ l := by
    intro l hl
    rcases List.mem_cons.mp hl with rfl | hl2
    · decide
    · rcases List.mem_map.mp hl2 with ⟨b, hb, rfl⟩
      exact newline_not_mem_row b (h b hb)
  rw [hbuild, splitOn_joinWith '\n' _ hlines (by simp)]
  refine ⟨rfl, ?_⟩
  simp

/-- Witness for C7 (amended) at a concrete one-book list with newline-free
fields. -/
theorem bookCsv_lineCount_witness :
    ([(⟨.str ['B'], some ⟨.str ['A']⟩, .str ['G']⟩ : Book)] ≠ []) ∧
    (∀ b ∈ [(⟨.str ['B'], some ⟨.str ['A']⟩, .str ['G']⟩ : Book)],
       ∀ v ∈ bookValues b, valueNewlineFree v = true) ∧
    (List.splitOn '\n'
        (bookCsvString [(⟨.str ['B'], some ⟨.str ['A']⟩, .str ['G']⟩ : Book)]) =
      joinWith ',' headers ::
        [(⟨.str ['B'], some ⟨.str ['A']⟩, .str ['G']⟩ : Book)].map
          (fun b => joinWith ',' (bookRow b)) ∧
     (List.splitOn '\n'
        (bookCsvString [(⟨.str ['B'], some ⟨.str ['A']⟩, .str ['G']⟩ : Book)])).length
       = [(⟨.str ['B'], some ⟨.str ['A']⟩, .str ['G']⟩ : Book)].length + 1) :=
  ⟨by decide, by decide,
   bookCsv_lineCount [⟨.str ['B'], some ⟨.str ['A']⟩, .str ['G']⟩] (by decide) (by decide)⟩

/-- Claim C9: the delivery step prepends exactly one byte-order mark to
the CSV text and realizes the output as a `text/csv;charset=utf-8` data
URI: the anchor's href is the MIME head followed by the encoded payload,
and decoding that payload yields the byte-order mark followed by the
unmodified document text; the download attribute carries the file name. -/
theorem downloadCsv_delivery (csvData fileName : List Char) :
    (downloadCsv csvData fileName).href = dataUriHead ++ encodeURI (bom :: csvData) ∧
    decodePayload (((downloadCsv csvData fileName).href).drop dataUriHead.length)
      = some (bom :: csvData) ∧
    (downloadCsv csvData fileName).target = "_blank".data ∧
    (downloadCsv csvData fileName).download = fileName := by
  refine ⟨rfl, ?_, rfl, rfl⟩
  rw [show (downloadCsv csvData fileName).href
      = dataUriHead ++ encodeURI (bom :: csvData) from rfl]
  rw [List.drop_left]
  exact decodePayload_encodeURI _

end LibraryManager
